import Mathlib

/-!
Shallow embedding of two maddy components and proofs about them:

* the `sign_dkim` modifier (package `dkim`): header-field selection for
  signing (`Modifier.fieldsToSign`), identifier derivation and the
  `RewriteBody` / `RewriteSender` / `RewriteRcpt` modifier methods;
* the SQL storage delivery target (package `sql`): `delivery.AddRcpt`
  recipient resolution, deduplication and error translation, and
  `Storage.GetOrCreateUser` account resolution.

Strings are modelled by Lean `String` (a list of runes); Go's
`strings.ToLower` is modelled by mapping `Char.toLower` over the runes
(ASCII case folding, which is all the verified properties exercise).
External collaborators (the go-msgauth signer, the go-imap-sql backend,
`address.Split`) are parameters of the embedded functions: the embedding
cases on their outcomes exactly as the Go code does.
-/

deriving instance DecidableEq for Except

namespace Maddy

namespace strings

/-- Go `strings.ToLower`, modelled as rune-wise lowering. -/
def ToLower (s : String) : String := ⟨s.data.map Char.toLower⟩

/-- Go `strings.Contains(s, sub)` for a one-rune `sub`. -/
def Contains (s : String) (c : Char) : Bool := s.data.contains c

/-- Splits a rune list around every occurrence of `c`; helper for `Split`. -/
def splitOnChar (c : Char) : List Char → List (List Char)
  | [] => [[]]
  | x :: xs =>
    let rest := splitOnChar c xs
    if x == c then [] :: rest
    else
      match rest with
      | [] => [[x]]
      | y :: ys => (x :: y) :: ys

/-- Go `strings.Split(s, sep)` for a one-rune separator. -/
def Split (s : String) (c : Char) : List String :=
  (splitOnChar c s.data).map (fun l => ⟨l⟩)

end strings

namespace dkim

/-- `textproto.Header`: an ordered sequence of (name, value) fields,
matched case-insensitively by name. -/
abbrev Header := List (String × String)

/-- Number of fields of `h` whose name matches `key` case-insensitively:
the number of iterations of `for field := h.FieldsByKey(key); field.Next();`. -/
def occCount (h : Header) (key : String) : Nat :=
  h.countP (fun f => strings.ToLower f.1 == strings.ToLower key)

/-- The configuration fields of `Modifier` used by the verified methods. -/
structure Modifier where
  domain : String
  selector : String
  oversignHeader : List String
  signHeader : List String

/-- First loop of `fieldsToSign`: for each key of `oversignHeader` not seen
yet (case-insensitively), append the key once per occurrence in the header
and once more to oversign it. Returns the final `seen` set and `res` list. -/
def oversignLoop (h : Header) :
    List String → List String → List String → List String × List String
  | [], seen, res => (seen, res)
  | key :: rest, seen, res =>
    if strings.ToLower key ∈ seen then
      oversignLoop h rest seen res
    else
      oversignLoop h rest (strings.ToLower key :: seen)
        ((res ++ List.replicate (occCount h key) key) ++ [key])

/-- Second loop of `fieldsToSign`: for each key of `signHeader` not seen yet
(case-insensitively), append the key once per occurrence in the header. -/
def signLoop (h : Header) :
    List String → List String → List String → List String × List String
  | [], seen, res => (seen, res)
  | key :: rest, seen, res =>
    if strings.ToLower key ∈ seen then
      signLoop h rest seen res
    else
      signLoop h rest (strings.ToLower key :: seen)
        (res ++ List.replicate (occCount h key) key)

/-- `Modifier.fieldsToSign`: the two loops run in sequence, sharing the
`seen` set and the result list. -/
def Modifier.fieldsToSign (m : Modifier) (h : Header) : List String :=
  let p := oversignLoop h m.oversignHeader [] []
  (signLoop h m.signHeader p.1 p.2).2

/-- Case-insensitive occurrence count of header name `x` in a key list. -/
def countCI (l : List String) (x : String) : Nat :=
  l.countP (fun e => strings.ToLower e == strings.ToLower x)

/-- The identifier computation at the top of `state.RewriteBody`:
`id := s.meta.OriginalFrom; if !strings.Contains(id, "@") { id += "@" + s.m.domain }`. -/
def deriveIdentifier (originalFrom domain : String) : String :=
  if strings.Contains originalFrom '@' then originalFrom
  else originalFrom ++ ("@" ++ domain)

/-- The fields of `dkim.SignOptions` that the embedding tracks. -/
structure SignOptions where
  Domain : String
  Selector : String
  Identifier : String
  HeaderKeys : List String

/-- Outcomes of the external go-msgauth signer calls made by `RewriteBody`:
`dkim.NewSigner` (validation, a function of the options), `WriteHeader`,
`body.Open`, `io.Copy` and `signer.Close`, plus the signature value
produced on success. `some e` means the corresponding call fails with `e`. -/
structure SignerOracle where
  newSignerErr : SignOptions → Option String
  writeHeaderErr : Option String
  openErr : Option String
  copyErr : Option String
  closeErr : Option String
  sigValue : String

/-- `state.RewriteSender`: returns its argument with a nil error. -/
def RewriteSender (mailFrom : String) : Except String String :=
  Except.ok mailFrom

/-- `state.RewriteRcpt`: returns its argument with a nil error. -/
def RewriteRcpt (rcptTo : String) : Except String String :=
  Except.ok rcptTo

/-- `state.RewriteBody`: derive the identifier, build the signing options,
run the signer step by step, and on success add the `DKIM-Signature` field
(go-message `Header.Add` puts the new field on top of the header). Any
failure returns the error with the header untouched. -/
def RewriteBody (oracle : SignerOracle) (m : Modifier) (originalFrom : String)
    (h : Header) : Except String Header :=
  let id := deriveIdentifier originalFrom m.domain
  let opts : SignOptions := ⟨m.domain, m.selector, id, m.fieldsToSign h⟩
  match oracle.newSignerErr opts with
  | some e => Except.error e
  | none =>
  match oracle.writeHeaderErr with
  | some e => Except.error e
  | none =>
  match oracle.openErr with
  | some e => Except.error e
  | none =>
  match oracle.copyErr with
  | some e => Except.error e
  | none =>
  match oracle.closeErr with
  | some e => Except.error e
  | none => Except.ok (("DKIM-Signature", oracle.sigValue) :: h)

end dkim

namespace sql

/-- Errors returned by the go-imap-sql / go-imap backend: the two sentinel
values `imapsql.ErrUserDoesntExists` and `backend.ErrNoSuchMailbox` that
`AddRcpt` recognizes, and everything else. -/
inductive BackendErr where
  | ErrUserDoesntExists
  | ErrNoSuchMailbox
  | other (msg : String)
deriving DecidableEq

/-- `smtp.SMTPError`. -/
structure SMTPError where
  Code : Nat
  EnhancedCode : Nat × Nat × Nat
  Message : String
deriving DecidableEq

/-- An error returned by `delivery.AddRcpt`: either a constructed
`*smtp.SMTPError` or a backend error passed through unmodified. -/
inductive DeliveryErr where
  | smtp (e : SMTPError)
  | backend (e : BackendErr)
deriving DecidableEq

/-- The mutable state of a `delivery` that `AddRcpt` reads and writes:
the `storagePerDomain` flag of its `Storage` and the `addedRcpts` set
(modelled as a duplicate-free list). -/
structure delivery where
  storagePerDomain : Bool
  addedRcpts : List String

/-- Modelled from the spec: `address.Split` is code of this repository that
is not under `src/`. Per the spec's account-resolution policy, the mailbox
part is the substring before the first `@` (or the whole string if there is
no `@`) and the domain part is the rest; the spec gives no failing case, so
the model always succeeds. `AddRcpt` below is parameterized over the split
function, so its error-translation properties hold for any split behaviour. -/
def addressSplit (addr : String) : Except String (String × String) :=
  if strings.Contains addr '@' then
    Except.ok (⟨addr.data.takeWhile (fun c => c != '@')⟩,
      ⟨(addr.data.dropWhile (fun c => c != '@')).tail⟩)
  else
    Except.ok (addr, "")

/-- The account-resolution step of `delivery.AddRcpt` (before case
folding): the full recipient address under `storagePerDomain`, otherwise
the mailbox part of the split, with a split failure turned into a
501 / 5.1.3 rejection. -/
def resolveAccount (split : String → Except String (String × String))
    (storagePerDomain : Bool) (rcptTo : String) : Except SMTPError String :=
  if storagePerDomain then
    Except.ok rcptTo
  else
    match split rcptTo with
    | Except.error e =>
      Except.error ⟨501, (5, 1, 3), "Invalid recipient address: " ++ e⟩
    | Except.ok (mailbox, _) => Except.ok mailbox

/-- The observable outcome of one `delivery.AddRcpt` call: the returned
error value, the delivery state afterwards, and the backend
`d.d.AddRcpt(account, userHeader)` call made, if any. -/
structure AddRcptResult where
  result : Except DeliveryErr Unit
  after : delivery
  backendCall : Option (String × dkim.Header)

/-- `delivery.AddRcpt`, parameterized over the `address.Split` function and
the backend `d.d.AddRcpt` outcome: resolve the account name, case-fold it,
return early on a duplicate, otherwise call the backend with the
`Delivered-To` per-recipient header, translating the two sentinel errors
to a 550 / 5.1.1 rejection and passing any other error through. -/
def AddRcpt (split : String → Except String (String × String))
    (backendAddRcpt : String → dkim.Header → Except BackendErr Unit)
    (d : delivery) (rcptTo : String) : AddRcptResult :=
  match resolveAccount split d.storagePerDomain rcptTo with
  | Except.error e => ⟨Except.error (DeliveryErr.smtp e), d, none⟩
  | Except.ok acc =>
    -- `accountName = strings.ToLower(accountName)`; the Go code lowers it
    -- once more when calling the backend, hence the double `ToLower`.
    if strings.ToLower acc ∈ d.addedRcpts then
      ⟨Except.ok (), d, none⟩
    else
      -- `userHeader` carries the literal recipient address.
      match backendAddRcpt (strings.ToLower (strings.ToLower acc))
          [("Delivered-To", rcptTo)] with
      | Except.error e =>
        if e = BackendErr.ErrUserDoesntExists ∨ e = BackendErr.ErrNoSuchMailbox then
          ⟨Except.error (DeliveryErr.smtp ⟨550, (5, 1, 1), "User doesn't exist"⟩),
            d, some (strings.ToLower (strings.ToLower acc),
              [("Delivered-To", rcptTo)])⟩
        else
          ⟨Except.error (DeliveryErr.backend e), d,
            some (strings.ToLower (strings.ToLower acc),
              [("Delivered-To", rcptTo)])⟩
      | Except.ok _ =>
        ⟨Except.ok (),
          { d with addedRcpts := strings.ToLower acc :: d.addedRcpts },
          some (strings.ToLower (strings.ToLower acc),
            [("Delivered-To", rcptTo)])⟩

/-- `Storage.GetOrCreateUser`: under `storagePerDomain` require an `@` and
use the full username, otherwise use `strings.Split(username, "@")[0]`.
The result is the account name passed to `store.back.GetOrCreateUser`. -/
def GetOrCreateUser (storagePerDomain : Bool) (username : String) :
    Except String String :=
  if storagePerDomain then
    if !(strings.Contains username '@') then
      Except.error "GetOrCreateUser: username@domain required"
    else
      Except.ok username
  else
    Except.ok ((strings.Split username '@').headD "")

end sql

/-! ### Lemmas about the header-selection loops -/

namespace dkim

theorem countP_replicate_eq {α : Type} (p : α → Bool) (n : Nat) (a : α) :
    List.countP p (List.replicate n a) = if p a then n else 0 := by
  induction n with
  | zero => simp
  | succ n ih =>
    rw [List.replicate_succ, List.countP_cons, ih]
    split <;> simp

theorem occCount_congr (h : Header) {k₁ k₂ : String}
    (e : strings.ToLower k₁ = strings.ToLower k₂) :
    occCount h k₁ = occCount h k₂ := by
  unfold occCount
  rw [e]

theorem oversignLoop_seen (h : Header) (keys : List String) :
    ∀ (seen res : List String) (y : String),
    y ∈ (oversignLoop h keys seen res).1 ↔
      y ∈ seen ∨ y ∈ keys.map strings.ToLower := by
  induction keys with
  | nil => intro seen res y; simp [oversignLoop]
  | cons key rest ih =>
    intro seen res y
    simp only [oversignLoop]
    by_cases hk : strings.ToLower key ∈ seen
    · rw [if_pos hk, ih]
      simp only [List.map_cons, List.mem_cons]
      constructor
      · rintro (hy | hy)
        · exact Or.inl hy
        · exact Or.inr (Or.inr hy)
      · rintro (hy | hy | hy)
        · exact Or.inl hy
        · exact Or.inl (hy ▸ hk)
        · exact Or.inr hy
    · rw [if_neg hk, ih]
      simp only [List.map_cons, List.mem_cons]
      tauto

theorem signLoop_seen (h : Header) (keys : List String) :
    ∀ (seen res : List String) (y : String),
    y ∈ (signLoop h keys seen res).1 ↔
      y ∈ seen ∨ y ∈ keys.map strings.ToLower := by
  induction keys with
  | nil => intro seen res y; simp [signLoop]
  | cons key rest ih =>
    intro seen res y
    simp only [signLoop]
    by_cases hk : strings.ToLower key ∈ seen
    · rw [if_pos hk, ih]
      simp only [List.map_cons, List.mem_cons]
      constructor
      · rintro (hy | hy)
        · exact Or.inl hy
        · exact Or.inr (Or.inr hy)
      · rintro (hy | hy | hy)
        · exact Or.inl hy
        · exact Or.inl (hy ▸ hk)
        · exact Or.inr hy
    · rw [if_neg hk, ih]
      simp only [List.map_cons, List.mem_cons]
      tauto

theorem oversignLoop_countCI_of_mem_seen (h : Header) (keys : List String) :
    ∀ (seen res : List String) (x : String), strings.ToLower x ∈ seen →
    countCI (oversignLoop h keys seen res).2 x = countCI res x := by
  induction keys with
  | nil => intro seen res x _; simp [oversignLoop]
  | cons key rest ih =>
    intro seen res x hx
    simp only [oversignLoop]
    by_cases hk : strings.ToLower key ∈ seen
    · rw [if_pos hk]; exact ih _ _ _ hx
    · rw [if_neg hk]
      rw [ih _ _ _ (List.mem_cons_of_mem _ hx)]
      have hne : (strings.ToLower key == strings.ToLower x) = false := by
        refine beq_eq_false_iff_ne.mpr fun e => hk ?_
        rw [e]; exact hx
      unfold countCI
      rw [List.countP_append, List.countP_append, countP_replicate_eq]
      simp [List.countP_cons, hne]

theorem signLoop_countCI_of_mem_seen (h : Header) (keys : List String) :
    ∀ (seen res : List String) (x : String), strings.ToLower x ∈ seen →
    countCI (signLoop h keys seen res).2 x = countCI res x := by
  induction keys with
  | nil => intro seen res x _; simp [signLoop]
  | cons key rest ih =>
    intro seen res x hx
    simp only [signLoop]
    by_cases hk : strings.ToLower key ∈ seen
    · rw [if_pos hk]; exact ih _ _ _ hx
    · rw [if_neg hk]
      rw [ih _ _ _ (List.mem_cons_of_mem _ hx)]
      have hne : (strings.ToLower key == strings.ToLower x) = false := by
        refine beq_eq_false_iff_ne.mpr fun e => hk ?_
        rw [e]; exact hx
      unfold countCI
      rw [List.countP_append, countP_replicate_eq]
      simp [hne]

theorem oversignLoop_countCI_absent (h : Header) (keys : List String) :
    ∀ (seen res : List String) (x : String),
    strings.ToLower x ∉ keys.map strings.ToLower →
    countCI (oversignLoop h keys seen res).2 x = countCI res x := by
  induction keys with
  | nil => intro seen res x _; simp [oversignLoop]
  | cons key rest ih =>
    intro seen res x hx
    have hxr : strings.ToLower x ∉ rest.map strings.ToLower := by
      intro hc; exact hx (by simp [hc])
    have hne : (strings.ToLower key == strings.ToLower x) = false := by
      refine beq_eq_false_iff_ne.mpr fun e => hx ?_
      simp [List.map_cons]
      exact Or.inl e.symm
    simp only [oversignLoop]
    by_cases hk : strings.ToLower key ∈ seen
    · rw [if_pos hk]; exact ih _ _ _ hxr
    · rw [if_neg hk, ih _ _ _ hxr]
      unfold countCI
      rw [List.countP_append, List.countP_append, countP_replicate_eq]
      simp [List.countP_cons, hne]

theorem signLoop_countCI_absent (h : Header) (keys : List String) :
    ∀ (seen res : List String) (x : String),
    strings.ToLower x ∉ keys.map strings.ToLower →
    countCI (signLoop h keys seen res).2 x = countCI res x := by
  induction keys with
  | nil => intro seen res x _; simp [signLoop]
  | cons key rest ih =>
    intro seen res x hx
    have hxr : strings.ToLower x ∉ rest.map strings.ToLower := by
      intro hc; exact hx (by simp [hc])
    have hne : (strings.ToLower key == strings.ToLower x) = false := by
      refine beq_eq_false_iff_ne.mpr fun e => hx ?_
      simp [List.map_cons]
      exact Or.inl e.symm
    simp only [signLoop]
    by_cases hk : strings.ToLower key ∈ seen
    · rw [if_pos hk]; exact ih _ _ _ hxr
    · rw [if_neg hk, ih _ _ _ hxr]
      unfold countCI
      rw [List.countP_append, countP_replicate_eq]
      simp [hne]

theorem oversignLoop_countCI_process (h : Header) (keys : List String) :
    ∀ (seen res : List String) (x : String), strings.ToLower x ∉ seen →
    strings.ToLower x ∈ keys.map strings.ToLower →
    countCI (oversignLoop h keys seen res).2 x =
      countCI res x + (occCount h x + 1) := by
  induction keys with
  | nil => intro seen res x _ hc; simp at hc
  | cons key rest ih =>
    intro seen res x hx hmem
    simp only [oversignLoop]
    by_cases hkx : strings.ToLower key = strings.ToLower x
    · have hk : strings.ToLower key ∉ seen := by rw [hkx]; exact hx
      rw [if_neg hk]
      rw [oversignLoop_countCI_of_mem_seen h rest _ _ _
        (by rw [hkx]; exact List.mem_cons_self _ _)]
      have hbeq : (strings.ToLower key == strings.ToLower x) = true :=
        beq_iff_eq.mpr hkx
      unfold countCI
      rw [List.countP_append, List.countP_append, countP_replicate_eq]
      simp only [List.countP_cons, List.countP_nil, hbeq, if_true]
      rw [occCount_congr h hkx]
      omega
    · have hmem' : strings.ToLower x ∈ rest.map strings.ToLower := by
        rw [List.map_cons, List.mem_cons] at hmem
        exact hmem.resolve_left fun e => hkx e.symm
      have hne : (strings.ToLower key == strings.ToLower x) = false :=
        beq_eq_false_iff_ne.mpr hkx
      by_cases hk : strings.ToLower key ∈ seen
      · rw [if_pos hk]; exact ih _ _ _ hx hmem'
      · rw [if_neg hk]
        rw [ih _ _ _ (by
          intro hc
          rcases List.mem_cons.mp hc with he | hs
          · exact hkx he.symm
          · exact hx hs) hmem']
        unfold countCI
        rw [List.countP_append, List.countP_append, countP_replicate_eq]
        simp [List.countP_cons, hne]

theorem signLoop_countCI_process (h : Header) (keys : List String) :
    ∀ (seen res : List String) (x : String), strings.ToLower x ∉ seen →
    strings.ToLower x ∈ keys.map strings.ToLower →
    countCI (signLoop h keys seen res).2 x = countCI res x + occCount h x := by
  induction keys with
  | nil => intro seen res x _ hc; simp at hc
  | cons key rest ih =>
    intro seen res x hx hmem
    simp only [signLoop]
    by_cases hkx : strings.ToLower key = strings.ToLower x
    · have hk : strings.ToLower key ∉ seen := by rw [hkx]; exact hx
      rw [if_neg hk]
      rw [signLoop_countCI_of_mem_seen h rest _ _ _
        (by rw [hkx]; exact List.mem_cons_self _ _)]
      have hbeq : (strings.ToLower key == strings.ToLower x) = true :=
        beq_iff_eq.mpr hkx
      unfold countCI
      rw [List.countP_append, countP_replicate_eq]
      simp only [hbeq, if_true]
      rw [occCount_congr h hkx]
    · have hmem' : strings.ToLower x ∈ rest.map strings.ToLower := by
        rw [List.map_cons, List.mem_cons] at hmem
        exact hmem.resolve_left fun e => hkx e.symm
      have hne : (strings.ToLower key == strings.ToLower x) = false :=
        beq_eq_false_iff_ne.mpr hkx
      by_cases hk : strings.ToLower key ∈ seen
      · rw [if_pos hk]; exact ih _ _ _ hx hmem'
      · rw [if_neg hk]
        rw [ih _ _ _ (by
          intro hc
          rcases List.mem_cons.mp hc with he | hs
          · exact hkx he.symm
          · exact hx hs) hmem']
        unfold countCI
        rw [List.countP_append, countP_replicate_eq]
        simp [hne]

theorem oversignLoop_mem (h : Header) (keys : List String) :
    ∀ (seen res : List String) (e : String),
    e ∈ (oversignLoop h keys seen res).2 → e ∈ res ∨ e ∈ keys := by
  induction keys with
  | nil => intro seen res e he; exact Or.inl he
  | cons key rest ih =>
    intro seen res e he
    simp only [oversignLoop] at he
    by_cases hk : strings.ToLower key ∈ seen
    · rw [if_pos hk] at he
      rcases ih _ _ _ he with hr | hr
      · exact Or.inl hr
      · exact Or.inr (List.mem_cons_of_mem _ hr)
    · rw [if_neg hk] at he
      rcases ih _ _ _ he with hr | hr
      · rcases List.mem_append.mp hr with hr' | hr'
        · rcases List.mem_append.mp hr' with hr'' | hr''
          · exact Or.inl hr''
          · exact Or.inr (by
              rw [List.eq_of_mem_replicate hr'']
              exact List.mem_cons_self _ _)
        · exact Or.inr (by
            rw [List.eq_of_mem_singleton hr']
            exact List.mem_cons_self _ _)
      · exact Or.inr (List.mem_cons_of_mem _ hr)

theorem signLoop_mem (h : Header) (keys : List String) :
    ∀ (seen res : List String) (e : String),
    e ∈ (signLoop h keys seen res).2 → e ∈ res ∨ e ∈ keys := by
  induction keys with
  | nil => intro seen res e he; exact Or.inl he
  | cons key rest ih =>
    intro seen res e he
    simp only [signLoop] at he
    by_cases hk : strings.ToLower key ∈ seen
    · rw [if_pos hk] at he
      rcases ih _ _ _ he with hr | hr
      · exact Or.inl hr
      · exact Or.inr (List.mem_cons_of_mem _ hr)
    · rw [if_neg hk] at he
      rcases ih _ _ _ he with hr | hr
      · rcases List.mem_append.mp hr with hr' | hr'
        · exact Or.inl hr'
        · exact Or.inr (by
            rw [List.eq_of_mem_replicate hr']
            exact List.mem_cons_self _ _)
      · exact Or.inr (List.mem_cons_of_mem _ hr)

theorem fieldsToSign_countCI_oversign (m : Modifier) (h : Header) (x : String)
    (hx : strings.ToLower x ∈ m.oversignHeader.map strings.ToLower) :
    countCI (m.fieldsToSign h) x = occCount h x + 1 := by
  unfold Modifier.fieldsToSign
  have h1 : strings.ToLower x ∈ (oversignLoop h m.oversignHeader [] []).1 := by
    rw [oversignLoop_seen]
    exact Or.inr hx
  rw [signLoop_countCI_of_mem_seen h m.signHeader _ _ _ h1]
  have h2 := oversignLoop_countCI_process h m.oversignHeader [] [] x
    (by simp) hx
  simpa [countCI] using h2

theorem fieldsToSign_countCI_sign (m : Modifier) (h : Header) (x : String)
    (hnx : strings.ToLower x ∉ m.oversignHeader.map strings.ToLower)
    (hx : strings.ToLower x ∈ m.signHeader.map strings.ToLower) :
    countCI (m.fieldsToSign h) x = occCount h x := by
  unfold Modifier.fieldsToSign
  have h1 : strings.ToLower x ∉ (oversignLoop h m.oversignHeader [] []).1 := by
    rw [oversignLoop_seen]
    simp [hnx]
  rw [signLoop_countCI_process h m.signHeader _ _ _ h1 hx]
  rw [oversignLoop_countCI_absent h m.oversignHeader _ _ _ hnx]
  simp [countCI]

theorem fieldsToSign_mem (m : Modifier) (h : Header) (e : String)
    (he : e ∈ m.fieldsToSign h) : e ∈ m.oversignHeader ++ m.signHeader := by
  unfold Modifier.fieldsToSign at he
  rcases signLoop_mem h m.signHeader _ _ _ he with hr | hr
  · rcases oversignLoop_mem h m.oversignHeader _ _ _ hr with hr' | hr'
    · simp at hr'
    · exact List.mem_append_left _ hr'
  · exact List.mem_append_right _ hr

theorem count_eq_countCI_of_nodup (m : Modifier) (h : Header) (x : String)
    (hnd : ((m.oversignHeader ++ m.signHeader).map strings.ToLower).Nodup)
    (hx : x ∈ m.oversignHeader ++ m.signHeader) :
    List.count x (m.fieldsToSign h) = countCI (m.fieldsToSign h) x := by
  rw [List.count_eq_countP]
  unfold countCI
  apply List.countP_congr
  intro e he
  have he' : e ∈ m.oversignHeader ++ m.signHeader := fieldsToSign_mem m h e he
  constructor
  · intro hb
    have : e = x := beq_iff_eq.mp hb
    rw [this]
    exact beq_iff_eq.mpr rfl
  · intro hb
    have hlow : strings.ToLower e = strings.ToLower x := beq_iff_eq.mp hb
    exact beq_iff_eq.mpr (List.inj_on_of_nodup_map hnd he' hx hlow)

/-! ### Claim theorems for the `dkim` component -/

/-- Claim C1, counterexample: with `"From"` in both the oversign and the
sign list and a header with zero `From` fields, `fieldsToSign` returns
`["From"]`: the sign-list name `"From"` has `k = 0` occurrences yet appears
once in the result, not `k` times as the claim states for sign-list names. -/
theorem fieldsToSign_sign_count_cex :
    Modifier.fieldsToSign ⟨"d", "s", ["From"], ["From"]⟩ [] = ["From"] ∧
    occCount [] "From" = 0 ∧
    List.count "From" (Modifier.fieldsToSign ⟨"d", "s", ["From"], ["From"]⟩ []) ≠
      occCount [] "From" := by
  decide

/-- Claim C1, amended: when the configured oversign and sign lists contain
no two entries that are equal case-insensitively (within one list or across
the two lists), the list returned by `fieldsToSign` contains each name from
the oversign list exactly `k+1` times and each name from the sign list
exactly `k` times, where `k` is the number of case-insensitive occurrences
of the name in the header; in particular an oversign name with `k = 0`
still contributes one entry and a sign name with `k = 0` contributes none. -/
theorem fieldsToSign_count_nodup :
    ∀ (m : Modifier) (h : Header),
    ((m.oversignHeader ++ m.signHeader).map strings.ToLower).Nodup →
    (∀ x ∈ m.oversignHeader,
      List.count x (m.fieldsToSign h) = occCount h x + 1) ∧
    (∀ x ∈ m.signHeader,
      List.count x (m.fieldsToSign h) = occCount h x) := by
  intro m h hnd
  constructor
  · intro x hx
    rw [count_eq_countCI_of_nodup m h x hnd (List.mem_append_left _ hx)]
    exact fieldsToSign_countCI_oversign m h x (List.mem_map_of_mem _ hx)
  · intro x hx
    rw [count_eq_countCI_of_nodup m h x hnd (List.mem_append_right _ hx)]
    have hdisj : (m.oversignHeader.map strings.ToLower).Disjoint
        (m.signHeader.map strings.ToLower) := by
      rw [List.map_append] at hnd
      exact (List.nodup_append.mp hnd).2.2
    refine fieldsToSign_countCI_sign m h x (fun hc => ?_)
      (List.mem_map_of_mem _ hx)
    exact hdisj hc (List.mem_map_of_mem _ hx)

/-- Claim C1, witness: with oversign list `["From"]`, sign list
`["List-Id"]` and two case-variant `From` fields plus one `list-id` field,
`"From"` appears `2 + 1` times and `"List-Id"` once. -/
theorem fieldsToSign_count_nodup_witness :
    List.count "From" (Modifier.fieldsToSign ⟨"d", "s", ["From"], ["List-Id"]⟩
        [("from", "a"), ("FROM", "b"), ("list-id", "c")]) =
      occCount [("from", "a"), ("FROM", "b"), ("list-id", "c")] "From" + 1 ∧
    List.count "List-Id" (Modifier.fieldsToSign ⟨"d", "s", ["From"], ["List-Id"]⟩
        [("from", "a"), ("FROM", "b"), ("list-id", "c")]) =
      occCount [("from", "a"), ("FROM", "b"), ("list-id", "c")] "List-Id" :=
  ⟨(fieldsToSign_count_nodup ⟨"d", "s", ["From"], ["List-Id"]⟩
      [("from", "a"), ("FROM", "b"), ("list-id", "c")] (by decide)).1 "From"
      (by decide),
   (fieldsToSign_count_nodup ⟨"d", "s", ["From"], ["List-Id"]⟩
      [("from", "a"), ("FROM", "b"), ("list-id", "c")] (by decide)).2 "List-Id"
      (by decide)⟩

/-- Claim C8: a header name whose case-insensitive class appears in both
the oversign list and the sign list is processed exactly once, under the
oversign rule: the result contains exactly `k+1` entries matching it
case-insensitively, names differing only in case deduplicating to a single
processed name. -/
theorem fieldsToSign_both_lists_oversigned :
    ∀ (m : Modifier) (h : Header) (x : String),
    strings.ToLower x ∈ m.oversignHeader.map strings.ToLower →
    strings.ToLower x ∈ m.signHeader.map strings.ToLower →
    countCI (m.fieldsToSign h) x = occCount h x + 1 :=
  fun m h x hx _ => fieldsToSign_countCI_oversign m h x hx

/-- Claim C8, witness: `"From"` oversigned and `"from"` in the sign list
deduplicate; on an empty header the class of `"FROM"` gets `0 + 1` entry. -/
theorem fieldsToSign_both_lists_oversigned_witness :
    countCI (Modifier.fieldsToSign ⟨"d", "s", ["From"], ["from"]⟩ []) "FROM" =
      occCount [] "FROM" + 1 :=
  fieldsToSign_both_lists_oversigned ⟨"d", "s", ["From"], ["from"]⟩ [] "FROM"
    (by decide) (by decide)

/-- Claim C9: the signing identifier is the original envelope sender
unchanged when it contains an `@`, and otherwise the envelope sender with
`@` plus the configured signing domain appended; in particular `"alice"`
with domain `"example.org"` yields `"alice@example.org"` and
`"alice@other.org"` is left as is. -/
theorem deriveIdentifier_spec :
    ∀ (originalFrom domain : String),
    (strings.Contains originalFrom '@' = true →
      deriveIdentifier originalFrom domain = originalFrom) ∧
    (strings.Contains originalFrom '@' = false →
      deriveIdentifier originalFrom domain = originalFrom ++ ("@" ++ domain)) ∧
    deriveIdentifier "alice" "example.org" = "alice@example.org" ∧
    deriveIdentifier "alice@other.org" "example.org" = "alice@other.org" := by
  intro originalFrom domain
  refine ⟨fun hc => ?_, fun hc => ?_, by decide, by decide⟩
  · unfold deriveIdentifier
    rw [hc]
    simp
  · unfold deriveIdentifier
    rw [hc]
    simp

/-- Claim C9, witness: the two branches at concrete senders. -/
theorem deriveIdentifier_spec_witness :
    deriveIdentifier "alice@other.org" "example.org" = "alice@other.org" ∧
    deriveIdentifier "bob" "example.org" = "bob" ++ ("@" ++ "example.org") :=
  ⟨(deriveIdentifier_spec "alice@other.org" "example.org").1 (by decide),
   (deriveIdentifier_spec "bob" "example.org").2.1 (by decide)⟩

/-- Claim C10: `RewriteSender` and `RewriteRcpt` of the `sign_dkim`
modifier state return their argument unchanged and never return an error. -/
theorem rewriteSenderRcpt_identity :
    ∀ s : String, RewriteSender s = Except.ok s ∧ RewriteRcpt s = Except.ok s :=
  fun _ => ⟨rfl, rfl⟩

/-- Claim C5: a failure of option validation (`NewSigner`), header
streaming (`WriteHeader`), body streaming (`Open`/`Copy`) or signer
finalization (`Close`) — checked in exactly that order, each reached only
when the earlier steps succeeded — makes `RewriteBody` return that step's
error, with the header left untouched (the error path of the model returns
no header, so no partial signature is ever emitted); when every step
succeeds, the result is the input header set with the single
`DKIM-Signature` field added; and every successful result has exactly that
one-field-added shape (no other mutation). -/
theorem rewriteBody_frame :
    ∀ (oracle : SignerOracle) (m : Modifier) (originalFrom : String)
      (h : Header),
    (∀ e, oracle.newSignerErr ⟨m.domain, m.selector,
        deriveIdentifier originalFrom m.domain, m.fieldsToSign h⟩ = some e →
      RewriteBody oracle m originalFrom h = Except.error e) ∧
    (oracle.newSignerErr ⟨m.domain, m.selector,
        deriveIdentifier originalFrom m.domain, m.fieldsToSign h⟩ = none →
      (∀ e, oracle.writeHeaderErr = some e →
        RewriteBody oracle m originalFrom h = Except.error e) ∧
      (oracle.writeHeaderErr = none →
        (∀ e, oracle.openErr = some e →
          RewriteBody oracle m originalFrom h = Except.error e) ∧
        (oracle.openErr = none →
          (∀ e, oracle.copyErr = some e →
            RewriteBody oracle m originalFrom h = Except.error e) ∧
          (oracle.copyErr = none →
            (∀ e, oracle.closeErr = some e →
              RewriteBody oracle m originalFrom h = Except.error e) ∧
            (oracle.closeErr = none →
              RewriteBody oracle m originalFrom h =
                Except.ok (("DKIM-Signature", oracle.sigValue) :: h)))))) ∧
    (∀ h', RewriteBody oracle m originalFrom h = Except.ok h' →
      h' = ("DKIM-Signature", oracle.sigValue) :: h) := by
  intro oracle m originalFrom h
  refine ⟨fun e hns => ?_, fun hns => ⟨fun e hwh => ?_, fun hwh =>
    ⟨fun e hop => ?_, fun hop => ⟨fun e hcp => ?_, fun hcp =>
    ⟨fun e hcl => ?_, fun hcl => ?_⟩⟩⟩⟩, fun h' hok => ?_⟩
  · simp only [RewriteBody, hns]
  · simp only [RewriteBody, hns, hwh]
  · simp only [RewriteBody, hns, hwh, hop]
  · simp only [RewriteBody, hns, hwh, hop, hcp]
  · simp only [RewriteBody, hns, hwh, hop, hcp, hcl]
  · simp only [RewriteBody, hns, hwh, hop, hcp, hcl]
  · simp only [RewriteBody] at hok
    cases hns : oracle.newSignerErr ⟨m.domain, m.selector,
        deriveIdentifier originalFrom m.domain, m.fieldsToSign h⟩ <;>
      cases hwh : oracle.writeHeaderErr <;>
      cases hop : oracle.openErr <;>
      cases hcp : oracle.copyErr <;>
      cases hcl : oracle.closeErr <;>
      simp_all

/-- Claim C5, witness: a failing `NewSigner` and a failing `io.Copy` each
propagate their error with no header returned, and with every signer step
succeeding, signing the empty header yields exactly the one signature
field. -/
theorem rewriteBody_frame_witness :
    RewriteBody ⟨fun _ => some "bad opts", none, none, none, none, "sig"⟩
        ⟨"example.org", "sel", [], []⟩ "alice" [] = Except.error "bad opts" ∧
    RewriteBody ⟨fun _ => none, none, none, some "io", none, "sig"⟩
        ⟨"example.org", "sel", [], []⟩ "alice" [] = Except.error "io" ∧
    RewriteBody ⟨fun _ => none, none, none, none, none, "sig"⟩
        ⟨"example.org", "sel", [], []⟩ "alice" [] =
      Except.ok (("DKIM-Signature", "sig") :: ([] : Header)) :=
  ⟨(rewriteBody_frame ⟨fun _ => some "bad opts", none, none, none, none, "sig"⟩
      ⟨"example.org", "sel", [], []⟩ "alice" []).1 "bad opts" rfl,
   ((((rewriteBody_frame ⟨fun _ => none, none, none, some "io", none, "sig"⟩
      ⟨"example.org", "sel", [], []⟩ "alice" []).2.1 rfl).2 rfl).2 rfl).1 "io" rfl,
   (((((rewriteBody_frame ⟨fun _ => none, none, none, none, none, "sig"⟩
      ⟨"example.org", "sel", [], []⟩ "alice" []).2.1 rfl).2 rfl).2
      rfl).2 rfl).2 rfl⟩

end dkim

/-! ### Lemmas about the delivery transaction -/

namespace sql

theorem resolveAccount_split_error (split : String → Except String (String × String))
    (rcptTo e : String) (hpd : split rcptTo = Except.error e) :
    resolveAccount split false rcptTo =
      Except.error ⟨501, (5, 1, 3), "Invalid recipient address: " ++ e⟩ := by
  unfold resolveAccount
  rw [if_neg (by simp), hpd]

theorem AddRcpt_resolve_error (split : String → Except String (String × String))
    (backendAddRcpt : String → dkim.Header → Except BackendErr Unit)
    (d : delivery) (rcptTo : String) (e : SMTPError)
    (hres : resolveAccount split d.storagePerDomain rcptTo = Except.error e) :
    AddRcpt split backendAddRcpt d rcptTo =
      ⟨Except.error (DeliveryErr.smtp e), d, none⟩ := by
  simp only [AddRcpt, hres]

theorem AddRcpt_dup (split : String → Except String (String × String))
    (backendAddRcpt : String → dkim.Header → Except BackendErr Unit)
    (d : delivery) (rcptTo acc : String)
    (hres : resolveAccount split d.storagePerDomain rcptTo = Except.ok acc)
    (hmem : strings.ToLower acc ∈ d.addedRcpts) :
    AddRcpt split backendAddRcpt d rcptTo = ⟨Except.ok (), d, none⟩ := by
  simp only [AddRcpt, hres, if_pos hmem]

theorem AddRcpt_backend_ok (split : String → Except String (String × String))
    (backendAddRcpt : String → dkim.Header → Except BackendErr Unit)
    (d : delivery) (rcptTo acc : String)
    (hres : resolveAccount split d.storagePerDomain rcptTo = Except.ok acc)
    (hmem : strings.ToLower acc ∉ d.addedRcpts)
    (hb : backendAddRcpt (strings.ToLower (strings.ToLower acc))
      [("Delivered-To", rcptTo)] = Except.ok ()) :
    AddRcpt split backendAddRcpt d rcptTo =
      ⟨Except.ok (),
        { d with addedRcpts := strings.ToLower acc :: d.addedRcpts },
        some (strings.ToLower (strings.ToLower acc),
          [("Delivered-To", rcptTo)])⟩ := by
  simp only [AddRcpt, hres, if_neg hmem, hb]

theorem AddRcpt_backend_sentinel (split : String → Except String (String × String))
    (backendAddRcpt : String → dkim.Header → Except BackendErr Unit)
    (d : delivery) (rcptTo acc : String) (e : BackendErr)
    (hres : resolveAccount split d.storagePerDomain rcptTo = Except.ok acc)
    (hmem : strings.ToLower acc ∉ d.addedRcpts)
    (hb : backendAddRcpt (strings.ToLower (strings.ToLower acc))
      [("Delivered-To", rcptTo)] = Except.error e)
    (hsent : e = BackendErr.ErrUserDoesntExists ∨ e = BackendErr.ErrNoSuchMailbox) :
    AddRcpt split backendAddRcpt d rcptTo =
      ⟨Except.error (DeliveryErr.smtp ⟨550, (5, 1, 1), "User doesn't exist"⟩),
        d, some (strings.ToLower (strings.ToLower acc),
          [("Delivered-To", rcptTo)])⟩ := by
  simp only [AddRcpt, hres, if_neg hmem, hb, if_pos hsent]

theorem AddRcpt_backend_passthrough (split : String → Except String (String × String))
    (backendAddRcpt : String → dkim.Header → Except BackendErr Unit)
    (d : delivery) (rcptTo acc : String) (e : BackendErr)
    (hres : resolveAccount split d.storagePerDomain rcptTo = Except.ok acc)
    (hmem : strings.ToLower acc ∉ d.addedRcpts)
    (hb : backendAddRcpt (strings.ToLower (strings.ToLower acc))
      [("Delivered-To", rcptTo)] = Except.error e)
    (hsent : ¬(e = BackendErr.ErrUserDoesntExists ∨ e = BackendErr.ErrNoSuchMailbox)) :
    AddRcpt split backendAddRcpt d rcptTo =
      ⟨Except.error (DeliveryErr.backend e), d,
        some (strings.ToLower (strings.ToLower acc),
          [("Delivered-To", rcptTo)])⟩ := by
  simp only [AddRcpt, hres, if_neg hmem, hb, if_neg hsent]

theorem AddRcpt_backendCall_of_new (split : String → Except String (String × String))
    (backendAddRcpt : String → dkim.Header → Except BackendErr Unit)
    (d : delivery) (rcptTo acc : String)
    (hres : resolveAccount split d.storagePerDomain rcptTo = Except.ok acc)
    (hmem : strings.ToLower acc ∉ d.addedRcpts) :
    (AddRcpt split backendAddRcpt d rcptTo).backendCall =
      some (strings.ToLower (strings.ToLower acc), [("Delivered-To", rcptTo)]) := by
  cases hb : backendAddRcpt (strings.ToLower (strings.ToLower acc))
      [("Delivered-To", rcptTo)] with
  | error e =>
    by_cases hsent : e = BackendErr.ErrUserDoesntExists ∨ e = BackendErr.ErrNoSuchMailbox
    · rw [AddRcpt_backend_sentinel split backendAddRcpt d rcptTo acc e hres hmem hb hsent]
    · rw [AddRcpt_backend_passthrough split backendAddRcpt d rcptTo acc e hres hmem hb hsent]
  | ok u =>
    cases u
    rw [AddRcpt_backend_ok split backendAddRcpt d rcptTo acc hres hmem hb]

theorem AddRcpt_after_cases (split : String → Except String (String × String))
    (backendAddRcpt : String → dkim.Header → Except BackendErr Unit)
    (d : delivery) (rcptTo : String) :
    (AddRcpt split backendAddRcpt d rcptTo).after.addedRcpts = d.addedRcpts ∨
    ∃ acc, resolveAccount split d.storagePerDomain rcptTo = Except.ok acc ∧
      strings.ToLower acc ∉ d.addedRcpts ∧
      (AddRcpt split backendAddRcpt d rcptTo).after.addedRcpts =
        strings.ToLower acc :: d.addedRcpts := by
  cases hres : resolveAccount split d.storagePerDomain rcptTo with
  | error e =>
    rw [AddRcpt_resolve_error split backendAddRcpt d rcptTo e hres]
    exact Or.inl rfl
  | ok acc =>
    by_cases hmem : strings.ToLower acc ∈ d.addedRcpts
    · rw [AddRcpt_dup split backendAddRcpt d rcptTo acc hres hmem]
      exact Or.inl rfl
    · cases hb : backendAddRcpt (strings.ToLower (strings.ToLower acc))
          [("Delivered-To", rcptTo)] with
      | error e =>
        by_cases hsent : e = BackendErr.ErrUserDoesntExists ∨
            e = BackendErr.ErrNoSuchMailbox
        · rw [AddRcpt_backend_sentinel split backendAddRcpt d rcptTo acc e
            hres hmem hb hsent]
          exact Or.inl rfl
        · rw [AddRcpt_backend_passthrough split backendAddRcpt d rcptTo acc e
            hres hmem hb hsent]
          exact Or.inl rfl
      | ok u =>
        cases u
        rw [AddRcpt_backend_ok split backendAddRcpt d rcptTo acc hres hmem hb]
        exact Or.inr ⟨acc, rfl, hmem, rfl⟩

/-! ### Claim theorems for the `sql` delivery component -/

/-- Claim C4: a backend error equal to the "user doesn't exist" or "no such
mailbox" sentinel is returned as a 550 / 5.1.1 rejection; a split failure
under the shared policy is returned as a 501 / 5.1.3 rejection; every other
backend error is returned unmodified. -/
theorem addRcpt_error_mapping :
    ∀ (split : String → Except String (String × String))
      (backendAddRcpt : String → dkim.Header → Except BackendErr Unit)
      (d : delivery) (rcptTo : String),
    (∀ e, d.storagePerDomain = false → split rcptTo = Except.error e →
      (AddRcpt split backendAddRcpt d rcptTo).result =
        Except.error (DeliveryErr.smtp
          ⟨501, (5, 1, 3), "Invalid recipient address: " ++ e⟩)) ∧
    (∀ acc, resolveAccount split d.storagePerDomain rcptTo = Except.ok acc →
      strings.ToLower acc ∉ d.addedRcpts →
      ((backendAddRcpt (strings.ToLower (strings.ToLower acc))
            [("Delivered-To", rcptTo)] =
          Except.error BackendErr.ErrUserDoesntExists ∨
        backendAddRcpt (strings.ToLower (strings.ToLower acc))
            [("Delivered-To", rcptTo)] =
          Except.error BackendErr.ErrNoSuchMailbox) →
        (AddRcpt split backendAddRcpt d rcptTo).result =
          Except.error (DeliveryErr.smtp
            ⟨550, (5, 1, 1), "User doesn't exist"⟩)) ∧
      (∀ e, backendAddRcpt (strings.ToLower (strings.ToLower acc))
            [("Delivered-To", rcptTo)] = Except.error e →
        ¬(e = BackendErr.ErrUserDoesntExists ∨ e = BackendErr.ErrNoSuchMailbox) →
        (AddRcpt split backendAddRcpt d rcptTo).result =
          Except.error (DeliveryErr.backend e))) := by
  intro split backend d rcptTo
  refine ⟨fun e hpd hsp => ?_,
    fun acc hres hmem => ⟨fun hsent => ?_, fun e hb hnot => ?_⟩⟩
  · have hres : resolveAccount split d.storagePerDomain rcptTo =
        Except.error ⟨501, (5, 1, 3), "Invalid recipient address: " ++ e⟩ := by
      rw [hpd]
      exact resolveAccount_split_error split rcptTo e hsp
    rw [AddRcpt_resolve_error split backend d rcptTo _ hres]
  · rcases hsent with hb | hb
    · rw [AddRcpt_backend_sentinel split backend d rcptTo acc _ hres hmem hb
        (Or.inl rfl)]
    · rw [AddRcpt_backend_sentinel split backend d rcptTo acc _ hres hmem hb
        (Or.inr rfl)]
  · rw [AddRcpt_backend_passthrough split backend d rcptTo acc e hres hmem hb hnot]

/-- Claim C4, witness: the three error translations at concrete inputs. -/
theorem addRcpt_error_mapping_witness :
    (AddRcpt (fun _ => Except.error "x") (fun _ _ => Except.ok ())
        ⟨false, []⟩ "bob").result =
      Except.error (DeliveryErr.smtp
        ⟨501, (5, 1, 3), "Invalid recipient address: " ++ "x"⟩) ∧
    (AddRcpt addressSplit (fun _ _ => Except.error BackendErr.ErrUserDoesntExists)
        ⟨false, []⟩ "bob").result =
      Except.error (DeliveryErr.smtp ⟨550, (5, 1, 1), "User doesn't exist"⟩) ∧
    (AddRcpt addressSplit (fun _ _ => Except.error (BackendErr.other "db down"))
        ⟨false, []⟩ "bob").result =
      Except.error (DeliveryErr.backend (BackendErr.other "db down")) :=
  ⟨(addRcpt_error_mapping (fun _ => Except.error "x") (fun _ _ => Except.ok ())
      ⟨false, []⟩ "bob").1 "x" rfl rfl,
   (addRcpt_error_mapping addressSplit
      (fun _ _ => Except.error BackendErr.ErrUserDoesntExists)
      ⟨false, []⟩ "bob").2 "bob" (by decide) (by decide) |>.1 (Or.inl rfl),
   (addRcpt_error_mapping addressSplit
      (fun _ _ => Except.error (BackendErr.other "db down"))
      ⟨false, []⟩ "bob").2 "bob" (by decide) (by decide) |>.2
      (BackendErr.other "db down") rfl (by decide)⟩

/-- Claim C7: a second `AddRcpt` whose recipient resolves to an account
already recorded returns success without invoking the backend and without
re-adding the account; an `AddRcpt` for a new account (with the backend
accepting) succeeds and records it; and `addedRcpts` never acquires a
duplicate. -/
theorem addRcpt_dedup :
    ∀ (split : String → Except String (String × String))
      (backendAddRcpt : String → dkim.Header → Except BackendErr Unit)
      (d : delivery) (rcptTo acc : String),
    resolveAccount split d.storagePerDomain rcptTo = Except.ok acc →
    (strings.ToLower acc ∈ d.addedRcpts →
      AddRcpt split backendAddRcpt d rcptTo = ⟨Except.ok (), d, none⟩) ∧
    (strings.ToLower acc ∉ d.addedRcpts →
      backendAddRcpt (strings.ToLower (strings.ToLower acc))
        [("Delivered-To", rcptTo)] = Except.ok () →
      AddRcpt split backendAddRcpt d rcptTo =
        ⟨Except.ok (),
          { d with addedRcpts := strings.ToLower acc :: d.addedRcpts },
          some (strings.ToLower (strings.ToLower acc),
            [("Delivered-To", rcptTo)])⟩) ∧
    (d.addedRcpts.Nodup →
      (AddRcpt split backendAddRcpt d rcptTo).after.addedRcpts.Nodup) := by
  intro split backend d rcptTo acc hres
  refine ⟨fun hmem => AddRcpt_dup split backend d rcptTo acc hres hmem,
    fun hmem hb => AddRcpt_backend_ok split backend d rcptTo acc hres hmem hb,
    fun hnd => ?_⟩
  rcases AddRcpt_after_cases split backend d rcptTo with hca | ⟨acc', _, hmem', hca⟩
  · rw [hca]; exact hnd
  · rw [hca]; exact List.nodup_cons.mpr ⟨hmem', hnd⟩

/-- Claim C7, witness: with `"bob"` already added, `AddRcpt "Bob"` is a
no-op success; `AddRcpt "carol@x"` then adds `"carol"`, keeping the set
duplicate-free. -/
theorem addRcpt_dedup_witness :
    AddRcpt addressSplit (fun _ _ => Except.ok ()) ⟨false, ["bob"]⟩ "Bob" =
      ⟨Except.ok (), ⟨false, ["bob"]⟩, none⟩ ∧
    AddRcpt addressSplit (fun _ _ => Except.ok ()) ⟨false, ["bob"]⟩ "carol@x" =
      ⟨Except.ok (),
        { (⟨false, ["bob"]⟩ : delivery) with
            addedRcpts := strings.ToLower "carol" :: ["bob"] },
        some (strings.ToLower (strings.ToLower "carol"),
          [("Delivered-To", "carol@x")])⟩ ∧
    (AddRcpt addressSplit (fun _ _ => Except.ok ()) ⟨false, ["bob"]⟩
        "carol@x").after.addedRcpts.Nodup :=
  ⟨(addRcpt_dedup addressSplit (fun _ _ => Except.ok ()) ⟨false, ["bob"]⟩
      "Bob" "Bob" (by decide)).1 (by decide),
   (addRcpt_dedup addressSplit (fun _ _ => Except.ok ()) ⟨false, ["bob"]⟩
      "carol@x" "carol" (by decide)).2.1 (by decide) rfl,
   (addRcpt_dedup addressSplit (fun _ _ => Except.ok ()) ⟨false, ["bob"]⟩
      "carol@x" "carol" (by decide)).2.2 (by decide)⟩

/-- Claim C3, counterexample: under the per-domain policy,
`AddRcpt "bob"` (no `@`) does NOT fail with a resolution error: the code
performs no `@` validation on this path, the address is accepted verbatim
and forwarded to the backend (here one that accepts it), so the call
returns success. -/
theorem addRcpt_perdomain_noat_cex :
    (AddRcpt addressSplit (fun _ _ => Except.ok ()) ⟨true, []⟩ "bob").result =
      Except.ok () ∧
    (AddRcpt addressSplit (fun _ _ => Except.ok ()) ⟨true, []⟩ "bob").backendCall =
      some ("bob", [("Delivered-To", "bob")]) := by
  decide

/-- Claim C3, amended: under the per-domain policy `AddRcpt` performs no
`@` validation: resolution always succeeds with the full address (the `@`
requirement is enforced only by `GetOrCreateUser`, which rejects
`@`-less usernames); under the shared policy `"bob"` resolves to the
account `"bob"` and proceeds to the backend. -/
theorem addRcpt_policy_resolution :
    ∀ (split : String → Except String (String × String))
      (backendAddRcpt : String → dkim.Header → Except BackendErr Unit),
    (∀ rcptTo, resolveAccount split true rcptTo = Except.ok rcptTo) ∧
    (AddRcpt addressSplit backendAddRcpt ⟨true, []⟩ "bob").backendCall =
      some ("bob", [("Delivered-To", "bob")]) ∧
    (AddRcpt addressSplit backendAddRcpt ⟨false, []⟩ "bob").backendCall =
      some ("bob", [("Delivered-To", "bob")]) ∧
    GetOrCreateUser true "bob" =
      Except.error "GetOrCreateUser: username@domain required" := by
  intro split backend
  refine ⟨fun rcptTo => rfl, ?_, ?_, by decide⟩
  · rw [AddRcpt_backendCall_of_new addressSplit backend ⟨true, []⟩ "bob" "bob"
      (by decide) (by decide)]
    decide
  · rw [AddRcpt_backendCall_of_new addressSplit backend ⟨false, []⟩ "bob" "bob"
      (by decide) (by decide)]
    decide

/-- Claim C6, counterexample: `GetOrCreateUser` does not case-fold: under
the per-domain policy the mixed-case username is passed to the backend
unchanged, although it differs from its lower-case form. -/
theorem getOrCreateUser_casefold_cex :
    GetOrCreateUser true "Bob@Example.org" = Except.ok "Bob@Example.org" ∧
    strings.ToLower "Bob@Example.org" ≠ "Bob@Example.org" := by
  decide

/-- Claim C6, amended: `AddRcpt` case-folds the resolved account under both
policies — every account name it records or passes to the backend is a
`ToLower` image of the resolved name — but `GetOrCreateUser` performs no
case-folding: it passes the full username (per-domain) or its first
`@`-segment (shared) verbatim. -/
theorem casefold_addRcpt_not_getOrCreateUser :
    ∀ (split : String → Except String (String × String))
      (backendAddRcpt : String → dkim.Header → Except BackendErr Unit)
      (d : delivery) (rcptTo acc : String),
    (resolveAccount split d.storagePerDomain rcptTo = Except.ok acc →
      strings.ToLower acc ∉ d.addedRcpts →
      (AddRcpt split backendAddRcpt d rcptTo).backendCall =
        some (strings.ToLower (strings.ToLower acc),
          [("Delivered-To", rcptTo)])) ∧
    ((AddRcpt split backendAddRcpt d rcptTo).after.addedRcpts = d.addedRcpts ∨
      ∃ raw, resolveAccount split d.storagePerDomain rcptTo = Except.ok raw ∧
        (AddRcpt split backendAddRcpt d rcptTo).after.addedRcpts =
          strings.ToLower raw :: d.addedRcpts) ∧
    (∀ u, strings.Contains u '@' = true → GetOrCreateUser true u = Except.ok u) ∧
    (∀ u, GetOrCreateUser false u =
      Except.ok ((strings.Split u '@').headD "")) := by
  intro split backend d rcptTo acc
  refine ⟨fun hres hmem =>
      AddRcpt_backendCall_of_new split backend d rcptTo acc hres hmem,
    ?_, fun u hc => ?_, fun u => rfl⟩
  · rcases AddRcpt_after_cases split backend d rcptTo with hca | ⟨raw, hres, _, hca⟩
    · exact Or.inl hca
    · exact Or.inr ⟨raw, hres, hca⟩
  · unfold GetOrCreateUser
    rw [if_pos rfl, hc]
    simp

/-- Claim C6, witness: a per-domain delivery for `"Bob@X"` invokes the
backend with the case-folded account, while `GetOrCreateUser` keeps
`"A@B"` verbatim. -/
theorem casefold_addRcpt_not_getOrCreateUser_witness :
    (AddRcpt addressSplit (fun _ _ => Except.ok ()) ⟨true, []⟩
        "Bob@X").backendCall =
      some (strings.ToLower (strings.ToLower "Bob@X"),
        [("Delivered-To", "Bob@X")]) ∧
    GetOrCreateUser true "A@B" = Except.ok "A@B" :=
  ⟨(casefold_addRcpt_not_getOrCreateUser addressSplit (fun _ _ => Except.ok ())
      ⟨true, []⟩ "Bob@X" "Bob@X").1 (by decide) (by decide),
   (casefold_addRcpt_not_getOrCreateUser addressSplit (fun _ _ => Except.ok ())
      ⟨true, []⟩ "Bob@X" "Bob@X").2.2.1 "A@B" (by decide)⟩

end sql

end Maddy
